import Mathlib

/-!
Shallow embedding of the OBD-II decoding layer (`src/accessors.rs`).

The transport layer is abstracted as a `Device`: a function from a request
(mode byte, optional PID byte) to the per-ECU payload lists the raw
primitive `obd_command` / `obd_mode_command` would return, already stripped
of the echoed mode/PID header, or a transport error.  Bytes are modelled as
`Nat` (payload bytes are in `[0, 256)`; theorems carry that bound where the
arithmetic depends on it).  Fallible Rust code returns `Except Error`;
code paths that panic in Rust (`unwrap`, `remove(0)` on an empty vector,
`todo!()`, `unreachable!()`) are modelled by the `PanicOr.panicked`
outcome.
-/

namespace Obd2

/-- The error enum of `accessors.rs`: `Device` wraps an opaque transport
error (modelled by its debug string), `Other` carries a descriptive
message, `IncorrectResponseLength` carries the dimension name
(`"length"` or `"count"`), the expected and the actual value. -/
inductive Error where
  | Device (msg : String)
  | Other (msg : String)
  | IncorrectResponseLength (dimension : String) (expected actual : Nat)
deriving DecidableEq, Repr

/-- Outcome of running Rust code that may panic: either the code panicked,
or it produced a value. -/
inductive PanicOr (α : Type) where
  | panicked
  | value (a : α)
deriving DecidableEq, Repr

/-- The abstract transport: `respond mode (some pid)` models
`obd_command(mode, pid)` and `respond mode none` models
`obd_mode_command(mode)`, each returning one payload byte list per
responding ECU, in delivery order, or a transport error already wrapped
as `Error`. -/
structure Device where
  respond : Nat → Option Nat → Except Error (List (List Nat))

/-- A device whose transport answers every request with the same fixed
list of per-ECU payloads. -/
def constDevice (rs : List (List Nat)) : Device :=
  ⟨fun _ _ => .ok rs⟩

/-- Body of `obd_command_len`'s `map`/`collect` over the per-ECU payloads:
each payload is converted to a fixed-size value of length `L`
(`v.try_into()`); the first payload of a different length aborts the
traversal with `IncorrectResponseLength("length", L, actual)`, exactly as
`collect::<Result<_>>` short-circuits in delivery order. -/
def fixLen (L : Nat) : List (List Nat) → Except Error (List (List Nat))
  | [] => .ok []
  | r :: rs =>
    if r.length = L then
      match fixLen L rs with
      | .ok v => .ok (r :: v)
      | .error e => .error e
    else
      .error (.IncorrectResponseLength "length" L r.length)

/-- `Obd2Device::obd_command_len::<L>(mode, pid)`. -/
def obd_command_len (L : Nat) (d : Device) (mode pid : Nat) :
    Except Error (List (List Nat)) :=
  match d.respond mode (some pid) with
  | .error e => .error e
  | .ok rs => fixLen L rs

/-- Count check of `obd_command_cnt_len`: the `try_into` of the list of
fixed-length payloads into an array of `N` of them, failing with
`IncorrectResponseLength("count", N, actual)`. -/
def fixCnt (N : Nat) (rs : List (List Nat)) : Except Error (List (List Nat)) :=
  if rs.length = N then .ok rs
  else .error (.IncorrectResponseLength "count" N rs.length)

/-- `Obd2Device::obd_command_cnt_len::<N, L>(mode, pid)`. -/
def obd_command_cnt_len (N L : Nat) (d : Device) (mode pid : Nat) :
    Except Error (List (List Nat)) :=
  match obd_command_len L d mode pid with
  | .error e => .error e
  | .ok rs => fixCnt N rs

/-- The `DtcsInfo` struct: per-ECU DTC metadata decoded from a 4-byte
mode 0x01 / PID 0x01 response. -/
structure DtcsInfo where
  malfunction_indicator_light : Bool
  dtc_count : Nat
  common_test_availability : Nat
  is_compression_engine : Bool
  specific_test_availability : Nat
deriving DecidableEq, Repr

/-- Body of `get_dtc_info`'s `map` over the per-ECU responses: a 4-byte
response is decoded field by field, any other length yields the
`Error::Other` message naming the actual length. -/
def dtcInfoOne (response : List Nat) : Except Error DtcsInfo :=
  if response.length = 4 then
    .ok
      { malfunction_indicator_light := (response.getD 0 0 &&& 0x80) == 0x80
        dtc_count := response.getD 0 0 &&& 0x7f
        common_test_availability :=
          ((response.getD 1 0 &&& 0xf0) >>> 1) ||| (response.getD 1 0 &&& 0x07)
        is_compression_engine := (response.getD 1 0 &&& 0x08) == 0x08
        specific_test_availability :=
          ((response.getD 3 0) <<< 8) ||| (response.getD 2 0) }
  else
    .error (.Other ("get_dtc_info: expected length 4, got " ++
      toString response.length))

/-- The `map`/`collect` of `get_dtc_info` over the response list:
all-or-nothing, stopping at the first response of the wrong length. -/
def dtcInfoList : List (List Nat) → Except Error (List DtcsInfo)
  | [] => .ok []
  | r :: rs =>
    match dtcInfoOne r with
    | .error e => .error e
    | .ok i =>
      match dtcInfoList rs with
      | .error e => .error e
      | .ok is => .ok (i :: is)

/-- `Obd2Device::get_dtc_info`: sends mode 0x01, PID 0x01, then decodes
each ECU's response. -/
def get_dtc_info (d : Device) : Except Error (List DtcsInfo) :=
  match d.respond 0x01 (some 0x01) with
  | .error e => .error e
  | .ok rs => dtcInfoList rs

/-- The `Dtc` enum: a categorized diagnostic trouble code carrying a
16-bit numeric code. -/
inductive Dtc where
  | Powertrain (n : Nat)
  | Chassis (n : Nat)
  | Body (n : Nat)
  | Network (n : Nat)
deriving DecidableEq, Repr

/-- The numeric code carried by a `Dtc`, whatever its category. -/
def Dtc.code : Dtc → Nat
  | .Powertrain n => n
  | .Chassis n => n
  | .Body n => n
  | .Network n => n

/-- The `match response[i] >> 6` of `get_dtcs`: the top two bits of the
byte select the category and the carried code is the literal 0.  For a
`u8` the shift is at most 3, so the `unreachable!()` arm is a panic
outcome that no byte below 256 can reach. -/
def dtcFromByte (b : Nat) : PanicOr Dtc :=
  match b >>> 6 with
  | 0 => .value (.Powertrain 0)
  | 1 => .value (.Chassis 0)
  | 2 => .value (.Body 0)
  | 3 => .value (.Network 0)
  | _ + 4 => .panicked

/-- The category selection as the spec states it: the top 2 bits of the
pair's first byte select the variant (00 → Powertrain, 01 → Chassis,
10 → Body, 11 → Network) and the carried code is 0.  For a byte below
256 the shifted value is at most 3, so the catch-all arm (needed only for
exhaustiveness over `Nat`) coincides with the 11 case. -/
def categoryOfByte (b : Nat) : Dtc :=
  match b >>> 6 with
  | 0 => .Powertrain 0
  | 1 => .Chassis 0
  | 2 => .Body 0
  | _ => .Network 0

/-- The `for i in (1..response.len()).step_by(2)` loop of `get_dtcs`,
started at index `i`: pushes one `Dtc` per visited index. -/
def dtcLoop (response : List Nat) (i : Nat) : PanicOr (List Dtc) :=
  if h : i < response.length then
    match dtcFromByte (response.get ⟨i, h⟩) with
    | .panicked => .panicked
    | .value d =>
      match dtcLoop response (i + 2) with
      | .panicked => .panicked
      | .value ds => .value (d :: ds)
  else
    .value []
termination_by response.length - i
decreasing_by omega

/-- Body of `get_dtcs`'s `map` over the per-ECU responses: first byte 0
with odd total length enters the pair loop; first byte 0 with even total
length is the `Error::Other "invalid response when getting DTCs ..."`
case; first byte 1–3 hits `todo!()` (a panic); any larger first byte is
the `Error::Other "invalid response ... when getting DTCs"` case; an
empty response is the `Error::Other "no response bytes when getting
DTCs"` case. -/
def dtcsOne (response : List Nat) : PanicOr (Except Error (List Dtc)) :=
  match response.head? with
  | some 0 =>
    if response.length % 2 = 1 then
      match dtcLoop response 1 with
      | .panicked => .panicked
      | .value ds => .value (.ok ds)
    else
      .value (.error (.Other ("invalid response when getting DTCs " ++
        toString response)))
  | some (n + 1) =>
    if n + 1 ≤ 3 then
      .panicked
    else
      .value (.error (.Other ("invalid response " ++ toString response ++
        " when getting DTCs")))
  | none => .value (.error (.Other "no response bytes when getting DTCs"))

/-- The `map`/`collect` of `get_dtcs` over the response list:
all-or-nothing, stopping at the first response that fails to decode. -/
def dtcsList : List (List Nat) → PanicOr (Except Error (List (List Dtc)))
  | [] => .value (.ok [])
  | r :: rs =>
    match dtcsOne r with
    | .panicked => .panicked
    | .value (.error e) => .value (.error e)
    | .value (.ok ds) =>
      match dtcsList rs with
      | .panicked => .panicked
      | .value (.error e) => .value (.error e)
      | .value (.ok rest) => .value (.ok (ds :: rest))

/-- `Obd2Device::get_dtcs`: sends the mode-only command 0x03, then decodes
each ECU's response. -/
def get_dtcs (d : Device) : PanicOr (Except Error (List (List Dtc))) :=
  match d.respond 0x03 none with
  | .error e => .value (.error e)
  | .ok rs => dtcsList rs

/-- `u16::from_be_bytes([a, b])`: the two payload bytes combined
big-endian. -/
def u16FromBeBytes (a b : Nat) : Nat := a * 256 + b

/-- `Obd2Device::get_rpm`: sends mode 0x01, PID 0x0C through
`obd_command_cnt_len::<1, 2>` and divides the big-endian 16-bit payload
by 4.  Rust computes `f32::from(u16) / 4.0`; every `u16` is exactly
representable in `f32` and division by 4 only shifts the exponent, so the
`f32` arithmetic is exact and is modelled in `ℚ`. -/
def get_rpm (d : Device) : Except Error ℚ :=
  match obd_command_cnt_len 1 2 d 0x01 0x0C with
  | .error e => .error e
  | .ok rs =>
    .ok ((u16FromBeBytes ((rs.getD 0 []).getD 0 0) ((rs.getD 0 []).getD 1 0) : ℚ) / 4)

/-- `Obd2Device::get_speed`: sends mode 0x01, PID 0x0C through
`obd_command_cnt_len::<1, 1>` and returns the single payload byte. -/
def get_speed (d : Device) : Except Error Nat :=
  match obd_command_cnt_len 1 1 d 0x01 0x0C with
  | .error e => .error e
  | .ok rs => .ok ((rs.getD 0 []).getD 0 0)

/-- A UTF-8 continuation byte, `0x80..=0xBF`. -/
def utf8Cont (b : Nat) : Bool := 0x80 ≤ b && b ≤ 0xbf

/-- Validity of a byte list as UTF-8, exactly the check performed by
Rust's `String::from_utf8` (the standard UTF-8 table: no overlong forms,
no surrogates, nothing above U+10FFFF). -/
def utf8Valid : List Nat → Bool
  | [] => true
  | b :: rest =>
    if b ≤ 0x7f then utf8Valid rest
    else if 0xc2 ≤ b && b ≤ 0xdf then
      match rest with
      | c1 :: rest2 => utf8Cont c1 && utf8Valid rest2
      | [] => false
    else if b = 0xe0 then
      match rest with
      | c1 :: c2 :: rest2 =>
        (0xa0 ≤ c1 && c1 ≤ 0xbf) && utf8Cont c2 && utf8Valid rest2
      | _ => false
    else if (0xe1 ≤ b && b ≤ 0xec) || (0xee ≤ b && b ≤ 0xef) then
      match rest with
      | c1 :: c2 :: rest2 => utf8Cont c1 && utf8Cont c2 && utf8Valid rest2
      | _ => false
    else if b = 0xed then
      match rest with
      | c1 :: c2 :: rest2 =>
        (0x80 ≤ c1 && c1 ≤ 0x9f) && utf8Cont c2 && utf8Valid rest2
      | _ => false
    else if b = 0xf0 then
      match rest with
      | c1 :: c2 :: c3 :: rest2 =>
        (0x90 ≤ c1 && c1 ≤ 0xbf) && utf8Cont c2 && utf8Cont c3 && utf8Valid rest2
      | _ => false
    else if 0xf1 ≤ b && b ≤ 0xf3 then
      match rest with
      | c1 :: c2 :: c3 :: rest2 =>
        utf8Cont c1 && utf8Cont c2 && utf8Cont c3 && utf8Valid rest2
      | _ => false
    else if b = 0xf4 then
      match rest with
      | c1 :: c2 :: c3 :: rest2 =>
        (0x80 ≤ c1 && c1 ≤ 0x8f) && utf8Cont c2 && utf8Cont c3 && utf8Valid rest2
      | _ => false
    else false

/-- `Obd2Device::get_vin`: sends mode 0x09, PID 0x02, pops the LAST
per-ECU response off the vector (`.pop().unwrap()` — a panic when no ECU
responded), removes its first byte (`.remove(0)` — a panic when the
response is empty), and converts the rest to a `String` with
`String::from_utf8`.  A Rust `String` is exactly its valid UTF-8 byte
content, so the decoded VIN is modelled by that byte list; the
`From<FromUtf8Error>` conversion turns a failed decode into
`Error::Other` (whose message interpolates the Rust error's debug text,
abstracted here). -/
def get_vin (d : Device) : PanicOr (Except Error (List Nat)) :=
  match d.respond 0x09 (some 0x02) with
  | .error e => .value (.error e)
  | .ok rs =>
    match rs.getLast? with
    | none => .panicked
    | some r =>
      match r with
      | [] => .panicked
      | _ :: rest =>
        if utf8Valid rest then .value (.ok rest)
        else .value (.error (.Other "invalid string recieved"))

/-- One hexadecimal digit as an uppercase character, as Rust's `{:X}`
formatting produces it. -/
def hexDigitChar (n : Nat) : Char :=
  if n < 10 then Char.ofNat (48 + n) else Char.ofNat (55 + n)

/-- The uppercase hexadecimal digits of `n`, most significant first, with
no leading zeros (a lone `0` for zero) — the digit string of Rust's
`{:X}`. -/
def hexDigits (n : Nat) : List Char :=
  if _h : n < 16 then [hexDigitChar n]
  else hexDigits (n / 16) ++ [hexDigitChar (n % 16)]
termination_by n
decreasing_by exact Nat.div_lt_self (by omega) (by omega)

/-- Left-padding with `'0'` to width 3, the `03` in Rust's `{:03X}`:
a minimum width, never a truncation. -/
def padZero3 (l : List Char) : List Char :=
  List.replicate (3 - l.length) '0' ++ l

/-- The category letter of the `Display` impl for `Dtc`. -/
def Dtc.letter : Dtc → Char
  | .Powertrain _ => 'P'
  | .Chassis _ => 'C'
  | .Body _ => 'B'
  | .Network _ => 'U'

/-- The `Display` impl for `Dtc`: `format!("{}{:03X}", c, n)`, the
category letter followed by the code in uppercase hexadecimal, zero-padded
to a minimum of 3 digits. -/
def Dtc.display (d : Dtc) : String :=
  String.mk (d.letter :: padZero3 (hexDigits d.code))

/-- The numeric value of one uppercase hexadecimal digit character,
inverse of `hexDigitChar` on digits. -/
def hexCharVal (c : Char) : Nat :=
  if c.toNat ≤ 57 then c.toNat - 48 else c.toNat - 55

/-- The numeric value of a most-significant-first hexadecimal digit
string: used to check that `Dtc.display` really renders the carried
code. -/
def hexVal (l : List Char) : Nat :=
  l.foldl (fun acc c => acc * 16 + hexCharVal c) 0

/-- Whether a character is one of `0-9A-F`, the digits Rust's `{:X}`
formatting emits. -/
def isUpperHexDigit (c : Char) : Bool :=
  (48 ≤ c.toNat && c.toNat ≤ 57) || (65 ≤ c.toNat && c.toNat ≤ 70)

/-! Unfolding lemmas for the well-founded recursive definitions, shared
by the claims below. -/

theorem hexDigits_lt (n : Nat) (h : n < 16) : hexDigits n = [hexDigitChar n] := by
  rw [hexDigits]
  simp [h]

theorem hexDigits_ge (n : Nat) (h : ¬ n < 16) :
    hexDigits n = hexDigits (n / 16) ++ [hexDigitChar (n % 16)] := by
  rw [hexDigits]
  simp [h]

theorem dtcLoop_stop (response : List Nat) (i : Nat)
    (h : ¬ i < response.length) : dtcLoop response i = .value [] := by
  rw [dtcLoop]
  simp [h]

theorem dtcLoop_step (response : List Nat) (i : Nat)
    (h : i < response.length) :
    dtcLoop response i =
      match dtcFromByte (response.get ⟨i, h⟩) with
      | .panicked => .panicked
      | .value d =>
        match dtcLoop response (i + 2) with
        | .panicked => .panicked
        | .value ds => .value (d :: ds) := by
  rw [dtcLoop]
  simp [h]

/-! Helper lemmas about the length/count combinators, shared by the
claims below. -/

theorem fixLen_all (L : Nat) (rs : List (List Nat))
    (h : ∀ r ∈ rs, r.length = L) : fixLen L rs = .ok rs := by
  induction rs with
  | nil => rfl
  | cons r rs ih =>
    have hr : r.length = L := h r (by simp)
    have ht := ih (fun x hx => h x (by simp [hx]))
    simp [fixLen, hr, ht]

theorem fixLen_first_bad (L : Nat) (pre : List (List Nat)) (bad : List Nat)
    (post : List (List Nat)) (hpre : ∀ r ∈ pre, r.length = L)
    (hbad : bad.length ≠ L) :
    fixLen L (pre ++ bad :: post) =
      .error (.IncorrectResponseLength "length" L bad.length) := by
  induction pre with
  | nil => simp [fixLen, hbad]
  | cons r pre ih =>
    have hr : r.length = L := hpre r (by simp)
    have ht := ih (fun x hx => hpre x (by simp [hx]))
    simp [fixLen, hr, ht]

theorem fixLen_split (L : Nat) (rs : List (List Nat)) :
    (∀ r ∈ rs, r.length = L) ∨
      ∃ pre bad post, rs = pre ++ bad :: post ∧
        (∀ r ∈ pre, r.length = L) ∧ bad.length ≠ L := by
  induction rs with
  | nil => left; simp
  | cons r rs ih =>
    by_cases hr : r.length = L
    · rcases ih with hall | ⟨pre, bad, post, heq, hpre, hbad⟩
      · left
        intro x hx
        rcases List.mem_cons.mp hx with h | h
        · exact h ▸ hr
        · exact hall x h
      · right
        refine ⟨r :: pre, bad, post, by simp [heq], ?_, hbad⟩
        intro x hx
        rcases List.mem_cons.mp hx with h | h
        · exact h ▸ hr
        · exact hpre x h
    · right
      exact ⟨[], r, rs, rfl, by simp, hr⟩

theorem fixLen_ok_inv (L : Nat) (rs v : List (List Nat))
    (h : fixLen L rs = .ok v) : v = rs ∧ ∀ r ∈ rs, r.length = L := by
  rcases fixLen_split L rs with hall | ⟨pre, bad, post, heq, hpre, hbad⟩
  · have := fixLen_all L rs hall
    rw [this] at h
    exact ⟨(Except.ok.injEq _ _ ▸ h).symm, hall⟩
  · rw [heq, fixLen_first_bad L pre bad post hpre hbad] at h
    exact absurd h (by simp)

/-- Claim C2: for every list of per-ECU payloads, `obd_command_len` with
expected length `L` succeeds returning each payload (as the fixed-size
`L`-byte value it already is) exactly when every payload has length `L`;
otherwise it fails with `IncorrectResponseLength("length", L, actual)`
where `actual` is the length of the first mismatching payload in delivery
order; it is a total function (never panics), and expected length 2
against a 3-byte payload yields dimension `"length"`, expected 2,
actual 3. -/
theorem obd_command_len_spec (L : Nat) (rs : List (List Nat)) (mode pid : Nat) :
    (obd_command_len L (constDevice rs) mode pid = .ok rs ↔
      ∀ r ∈ rs, r.length = L)
    ∧ (∀ v, obd_command_len L (constDevice rs) mode pid = .ok v → v = rs)
    ∧ ((∀ r ∈ rs, r.length = L) ∨
        ∃ pre bad post, rs = pre ++ bad :: post ∧
          (∀ r ∈ pre, r.length = L) ∧ bad.length ≠ L ∧
          obd_command_len L (constDevice rs) mode pid =
            .error (.IncorrectResponseLength "length" L bad.length))
    ∧ obd_command_len 2 (constDevice [[0, 1, 2]]) mode pid =
        .error (.IncorrectResponseLength "length" 2 3) := by
  have hdef : ∀ M (xs : List (List Nat)),
      obd_command_len M (constDevice xs) mode pid = fixLen M xs := by
    intro M xs
    rfl
  refine ⟨⟨fun h => (fixLen_ok_inv L rs rs (hdef L rs ▸ h)).2,
      fun h => hdef L rs ▸ fixLen_all L rs h⟩,
    fun v hv => (fixLen_ok_inv L rs v (hdef L rs ▸ hv)).1, ?_, ?_⟩
  · rcases fixLen_split L rs with hall | ⟨pre, bad, post, heq, hpre, hbad⟩
    · exact Or.inl hall
    · refine Or.inr ⟨pre, bad, post, heq, hpre, hbad, ?_⟩
      rw [hdef L rs, heq]
      exact fixLen_first_bad L pre bad post hpre hbad
  · rw [hdef 2 [[0, 1, 2]]]
    rfl

/-- Claim C3: for every list of per-ECU payloads that all have the
expected byte length `L`, `obd_command_cnt_len` with expected ECU count
`N` succeeds (returning the payloads) exactly when the number of
responding ECUs is `N`; otherwise it fails with
`IncorrectResponseLength("count", N, actual_count)` carrying the actual
count. -/
theorem obd_command_cnt_len_spec (N L : Nat) (rs : List (List Nat))
    (mode pid : Nat) (h : ∀ r ∈ rs, r.length = L) :
    (obd_command_cnt_len N L (constDevice rs) mode pid = .ok rs ↔
      rs.length = N)
    ∧ (rs.length ≠ N →
        obd_command_cnt_len N L (constDevice rs) mode pid =
          .error (.IncorrectResponseLength "count" N rs.length)) := by
  have hdef : obd_command_cnt_len N L (constDevice rs) mode pid =
      match fixLen L rs with
      | .error e => .error e
      | .ok v => fixCnt N v := rfl
  rw [hdef, fixLen_all L rs h]
  constructor
  · constructor
    · intro hok
      by_contra hne
      simp only [fixCnt, if_neg hne] at hok
      exact absurd hok (by simp)
    · intro hn
      simp [fixCnt, hn]
  · intro hn
    simp [fixCnt, hn]

/-- Witness for C3 at a concrete input: two 2-byte payloads against an
expected count of 1 fail with dimension `"count"`, expected 1, actual 2,
and a single 2-byte payload succeeds. -/
theorem obd_command_cnt_len_spec_witness :
    obd_command_cnt_len 1 2 (constDevice [[0, 1], [2, 3]]) 1 12 =
      .error (.IncorrectResponseLength "count" 1 2)
    ∧ obd_command_cnt_len 1 2 (constDevice [[0, 1]]) 1 12 = .ok [[0, 1]] := by
  constructor
  · exact (obd_command_cnt_len_spec 1 2 [[0, 1], [2, 3]] 1 12 (by decide)).2
      (by decide)
  · exact (obd_command_cnt_len_spec 1 2 [[0, 1]] 1 12 (by decide)).1.mpr
      (by decide)

theorem beq_and_two_pow (b i : Nat) : ((b &&& 2 ^ i) == 2 ^ i) = b.testBit i := by
  rw [Nat.and_two_pow]
  cases h : b.testBit i
  · simp only [Bool.toNat_false, Nat.zero_mul, beq_eq_false_iff_ne, ne_eq]
    exact ((Nat.two_pow_pos i).ne').symm
  · simp

theorem dtcInfoList_first_bad (rs : List (List Nat))
    (h : ∃ r ∈ rs, r.length ≠ 4) :
    ∃ n, n ≠ 4 ∧ (∃ r ∈ rs, r.length = n) ∧
      dtcInfoList rs =
        .error (.Other ("get_dtc_info: expected length 4, got " ++ toString n)) := by
  induction rs with
  | nil => simp at h
  | cons r rs ih =>
    by_cases hr : r.length = 4
    · have hok : ∃ i, dtcInfoOne r = .ok i := by
        simp [dtcInfoOne, hr]
      have htail : ∃ x ∈ rs, x.length ≠ 4 := by
        rcases h with ⟨x, hx, hxl⟩
        rcases List.mem_cons.mp hx with hxr | hxr
        · exact absurd (hxr ▸ hr) hxl
        · exact ⟨x, hxr, hxl⟩
      rcases ih htail with ⟨n, hn4, ⟨x, hx, hxl⟩, herr⟩
      rcases hok with ⟨i, hi⟩
      exact ⟨n, hn4, ⟨x, by simp [hx], hxl⟩, by simp [dtcInfoList, hi, herr]⟩
    · exact ⟨r.length, hr, ⟨r, by simp, rfl⟩,
        by simp [dtcInfoList, dtcInfoOne, hr]⟩

/-- Claim C1: a 4-byte ECU response `[b0, b1, b2, b3]` decodes to a
`DtcsInfo` with MIL = bit 7 of `b0`, `dtc_count` = bits 0–6 of `b0`,
`common_test_availability = ((b1 & 0xF0) >> 1) | (b1 & 0x07)`,
`is_compression_engine` = bit 3 of `b1`, and
`specific_test_availability = (b3 << 8) | b2`; the response
`[0x81, 0x98, 0x02, 0x03]` decodes to MIL = true, `dtc_count` = 1,
compression-engine flag = true, `specific_test_availability` = 0x0302;
and any response whose length is not 4 makes the whole call fail with an
`Other` error naming the actual length. -/
theorem get_dtc_info_spec (b0 b1 b2 b3 : Nat) (rs : List (List Nat)) :
    dtcInfoOne [b0, b1, b2, b3] = .ok
      { malfunction_indicator_light := b0.testBit 7
        dtc_count := b0 % 128
        common_test_availability := ((b1 &&& 0xf0) >>> 1) ||| (b1 &&& 0x07)
        is_compression_engine := b1.testBit 3
        specific_test_availability := (b3 <<< 8) ||| b2 }
    ∧ get_dtc_info (constDevice [[0x81, 0x98, 0x02, 0x03]]) =
        .ok [{ malfunction_indicator_light := true
               dtc_count := 1
               common_test_availability := 0x48
               is_compression_engine := true
               specific_test_availability := 0x0302 }]
    ∧ ((∃ r ∈ rs, r.length ≠ 4) → ∃ n, n ≠ 4 ∧ (∃ r ∈ rs, r.length = n) ∧
        get_dtc_info (constDevice rs) =
          .error (.Other ("get_dtc_info: expected length 4, got " ++ toString n))) := by
  refine ⟨?_, rfl, fun h => dtcInfoList_first_bad rs h⟩
  have hmil : ((b0 &&& 0x80) == 0x80) = b0.testBit 7 := by
    have := beq_and_two_pow b0 7
    norm_num at this
    exact this
  have hcnt : b0 &&& 0x7f = b0 % 128 := by
    have := Nat.and_pow_two_sub_one_eq_mod b0 7
    norm_num at this
    exact this
  have hcomp : ((b1 &&& 0x08) == 0x08) = b1.testBit 3 := by
    have := beq_and_two_pow b1 3
    norm_num at this
    exact this
  simp [dtcInfoOne, hmil, hcnt, hcomp]

/-- Witness for C1 at a concrete input: the listed decode of
`[0x81, 0x98, 0x02, 0x03]` and the whole-call failure on a 2-byte
response. -/
theorem get_dtc_info_spec_witness :
    dtcInfoOne [0x81, 0x98, 0x02, 0x03] = .ok
      { malfunction_indicator_light := Nat.testBit 0x81 7
        dtc_count := 0x81 % 128
        common_test_availability := ((0x98 &&& 0xf0) >>> 1) ||| (0x98 &&& 0x07)
        is_compression_engine := Nat.testBit 0x98 3
        specific_test_availability := (0x03 <<< 8) ||| 0x02 }
    ∧ ∃ n, n ≠ 4 ∧ (∃ r ∈ [[0x81, 0x98]], r.length = n) ∧
        get_dtc_info (constDevice [[0x81, 0x98]]) =
          .error (.Other ("get_dtc_info: expected length 4, got " ++ toString n)) :=
  ⟨(get_dtc_info_spec 0x81 0x98 0x02 0x03 []).1,
    (get_dtc_info_spec 0 0 0 0 [[0x81, 0x98]]).2.2
      ⟨[0x81, 0x98], by simp, by simp⟩⟩

/-- Claim C7: `get_rpm` sends mode 0x01, PID 0x0C (its result depends
only on the transport's answer to that request), requires exactly 1
responding ECU with a 2-byte payload — failing with the structured
count/length errors otherwise — and on success returns the payload
decoded as a big-endian 16-bit integer divided by 4; the payload
`[0x1A, 0xF8]` yields exactly 1726. -/
theorem get_rpm_spec :
    (∀ d₁ d₂ : Device,
      d₁.respond 0x01 (some 0x0c) = d₂.respond 0x01 (some 0x0c) →
        get_rpm d₁ = get_rpm d₂)
    ∧ (∀ a b : Nat,
        get_rpm (constDevice [[a, b]]) = .ok ((u16FromBeBytes a b : ℚ) / 4))
    ∧ (∀ rs : List (List Nat), (∀ r ∈ rs, r.length = 2) → rs.length ≠ 1 →
        get_rpm (constDevice rs) =
          .error (.IncorrectResponseLength "count" 1 rs.length))
    ∧ (∀ pre bad post, (∀ r ∈ pre, List.length r = 2) → bad.length ≠ 2 →
        get_rpm (constDevice (pre ++ bad :: post)) =
          .error (.IncorrectResponseLength "length" 2 bad.length))
    ∧ get_rpm (constDevice [[0x1a, 0xf8]]) = .ok 1726 := by
  refine ⟨?_, ?_, ?_, ?_, ?_⟩
  · intro d₁ d₂ h
    unfold get_rpm obd_command_cnt_len obd_command_len
    rw [h]
  · intro a b
    rfl
  · intro rs hlen hcnt
    have h1 : fixLen 2 rs = .ok rs := fixLen_all 2 rs hlen
    simp [get_rpm, obd_command_cnt_len, obd_command_len, constDevice, h1,
      fixCnt, if_neg hcnt]
  · intro pre bad post hpre hbad
    have h1 := fixLen_first_bad 2 pre bad post hpre hbad
    simp [get_rpm, obd_command_cnt_len, obd_command_len, constDevice, h1]
  · have : ((u16FromBeBytes 0x1a 0xf8 : ℚ) / 4) = 1726 := by
      norm_num [u16FromBeBytes]
    calc get_rpm (constDevice [[0x1a, 0xf8]])
        = .ok ((u16FromBeBytes 0x1a 0xf8 : ℚ) / 4) := rfl
      _ = .ok 1726 := by rw [this]

/-- Witness for C7 at a concrete input: the success-shape conjuncts are
applied at `[[0x1A, 0xF8]]` and the failure conjuncts at an empty
response set and at a single 3-byte payload. -/
theorem get_rpm_spec_witness :
    get_rpm (constDevice [[0x1a, 0xf8]]) = .ok 1726
    ∧ get_rpm (constDevice []) =
        .error (.IncorrectResponseLength "count" 1 0)
    ∧ get_rpm (constDevice [[1, 2, 3]]) =
        .error (.IncorrectResponseLength "length" 2 3) :=
  ⟨get_rpm_spec.2.2.2.2,
    get_rpm_spec.2.2.1 [] (by simp) (by simp),
    get_rpm_spec.2.2.2.1 [] [1, 2, 3] [] (by simp) (by simp)⟩

/-- Claim C8: `get_speed` sends mode 0x01, PID 0x0C — the identical
request as `get_rpm`, so both results depend only on the transport's
answer to that one request — requires exactly 1 responding ECU with a
1-byte payload (failing with the structured count/length errors
otherwise), and on success returns that single payload byte unchanged;
the payload `[0x50]` yields 80. -/
theorem get_speed_spec :
    (∀ d₁ d₂ : Device,
      d₁.respond 0x01 (some 0x0c) = d₂.respond 0x01 (some 0x0c) →
        get_speed d₁ = get_speed d₂ ∧ get_rpm d₁ = get_rpm d₂)
    ∧ (∀ a : Nat, get_speed (constDevice [[a]]) = .ok a)
    ∧ (∀ rs : List (List Nat), (∀ r ∈ rs, r.length = 1) → rs.length ≠ 1 →
        get_speed (constDevice rs) =
          .error (.IncorrectResponseLength "count" 1 rs.length))
    ∧ (∀ pre bad post, (∀ r ∈ pre, List.length r = 1) → bad.length ≠ 1 →
        get_speed (constDevice (pre ++ bad :: post)) =
          .error (.IncorrectResponseLength "length" 1 bad.length))
    ∧ get_speed (constDevice [[0x50]]) = .ok 80 := by
  refine ⟨?_, ?_, ?_, ?_, rfl⟩
  · intro d₁ d₂ h
    constructor
    · unfold get_speed obd_command_cnt_len obd_command_len
      rw [h]
    · unfold get_rpm obd_command_cnt_len obd_command_len
      rw [h]
  · intro a
    rfl
  · intro rs hlen hcnt
    have h1 : fixLen 1 rs = .ok rs := fixLen_all 1 rs hlen
    simp [get_speed, obd_command_cnt_len, obd_command_len, constDevice, h1,
      fixCnt, if_neg hcnt]
  · intro pre bad post hpre hbad
    have h1 := fixLen_first_bad 1 pre bad post hpre hbad
    simp [get_speed, obd_command_cnt_len, obd_command_len, constDevice, h1]

/-- Witness for C8 at a concrete input: success at `[[0x50]]`, count
failure at two 1-byte payloads, length failure at a 2-byte payload. -/
theorem get_speed_spec_witness :
    get_speed (constDevice [[0x50]]) = .ok 80
    ∧ get_speed (constDevice [[1], [2]]) =
        .error (.IncorrectResponseLength "count" 1 2)
    ∧ get_speed (constDevice [[1, 2]]) =
        .error (.IncorrectResponseLength "length" 1 2) :=
  ⟨get_speed_spec.2.2.2.2,
    get_speed_spec.2.2.1 [[1], [2]] (by simp) (by simp),
    get_speed_spec.2.2.2.1 [] [1, 2] [] (by simp) (by simp)⟩

/-- Counterexample to claim C4 as stated: when no ECU responded at all,
`get_vin` does not fail with a decode error — the `.pop().unwrap()`
panics. -/
theorem get_vin_no_ecu_counterexample :
    get_vin (constDevice []) = PanicOr.panicked := rfl

/-- Claim C4 (amended): `get_vin` sends mode 0x09 PID 0x02 (its result
depends only on the transport's answer to that request), takes the last
ECU response, discards its first byte, and decodes the remaining bytes
as a UTF-8 string; it fails with a decode error (not a panic) if those
bytes are not valid UTF-8; but if no ECU responded at all it panics
(`.pop().unwrap()` on an empty response list) instead of returning an
error. -/
theorem get_vin_amended :
    (∀ d₁ d₂ : Device,
      d₁.respond 0x09 (some 0x02) = d₂.respond 0x09 (some 0x02) →
        get_vin d₁ = get_vin d₂)
    ∧ (∀ (rs : List (List Nat)) (b : Nat) (rest : List Nat),
        rs.getLast? = some (b :: rest) → utf8Valid rest = true →
          get_vin (constDevice rs) = .value (.ok rest))
    ∧ (∀ (rs : List (List Nat)) (b : Nat) (rest : List Nat),
        rs.getLast? = some (b :: rest) → utf8Valid rest = false →
          get_vin (constDevice rs) =
            .value (.error (.Other "invalid string recieved")))
    ∧ get_vin (constDevice []) = .panicked := by
  refine ⟨?_, ?_, ?_, rfl⟩
  · intro d₁ d₂ h
    unfold get_vin
    rw [h]
  · intro rs b rest hlast hv
    simp [get_vin, constDevice, hlast, hv]
  · intro rs b rest hlast hv
    simp [get_vin, constDevice, hlast, hv]

/-- Witness for C4 (amended) at concrete inputs: a valid-UTF-8 VIN
payload decodes to its bytes after the first, and a payload whose tail is
the invalid byte 0xFF yields the decode error. -/
theorem get_vin_amended_witness :
    get_vin (constDevice [[1, 65, 66]]) = .value (.ok [65, 66])
    ∧ get_vin (constDevice [[1, 0xff]]) =
        .value (.error (.Other "invalid string recieved")) :=
  ⟨get_vin_amended.2.1 [[1, 65, 66]] 1 [65, 66] rfl (by decide),
    get_vin_amended.2.2.1 [[1, 0xff]] 1 [0xff] rfl (by decide)⟩

/-- Claim C10: when more than one ECU responds to the VIN request,
`get_vin` decodes the last response in the transport's delivery order and
silently ignores all earlier responses: its result is the same as if the
last response were the only one. -/
theorem get_vin_uses_last (d : Device) (rs : List (List Nat))
    (h : d.respond 0x09 (some 0x02) = .ok rs) (hne : rs ≠ []) :
    get_vin d = get_vin (constDevice [rs.getLast hne]) := by
  unfold get_vin
  rw [h]
  simp [constDevice, List.getLast?_eq_getLast rs hne]

/-- Witness for C10 at a concrete input: with two ECU responses the VIN
comes out exactly as if only the second (last) had been delivered. -/
theorem get_vin_uses_last_witness :
    get_vin (constDevice [[1, 65], [2, 66]]) =
      get_vin (constDevice [[2, 66]]) :=
  get_vin_uses_last (constDevice [[1, 65], [2, 66]]) [[1, 65], [2, 66]]
    rfl (by simp)

theorem dtcsList_prefix_error (pre : List (List Nat)) (response : List Nat)
    (post : List (List Nat))
    (hpre : ∀ r ∈ pre, ∃ ds, dtcsOne r = .value (.ok ds)) (e : Error)
    (herr : dtcsOne response = .value (.error e)) :
    dtcsList (pre ++ response :: post) = .value (.error e) := by
  induction pre with
  | nil => simp [dtcsList, herr]
  | cons r pre ih =>
    rcases hpre r (by simp) with ⟨ds, hds⟩
    have ht := ih (fun x hx => hpre x (by simp [hx]))
    simp [dtcsList, hds, ht]

/-- Counterexample to claim C5 as stated: the response `[0, 0x40, 0]` has
first byte 0 and a remaining length of 2 — not odd — yet `get_dtcs` does
not return a decode error on it: it decodes it successfully (the code's
parity guard accepts an even number of bytes after the first, since they
are consumed in pairs). -/
theorem get_dtcs_parity_counterexample :
    dtcsOne [0, 0x40, 0] = .value (.ok [Dtc.Chassis 0])
    ∧ dtcsList [[0, 0x40, 0]] = .value (.ok [[Dtc.Chassis 0]]) := by
  have h1 : dtcsOne [0, 0x40, 0] = .value (.ok [Dtc.Chassis 0]) := by
    norm_num [dtcsOne, dtcLoop_step, dtcLoop_stop, dtcFromByte]
  exact ⟨h1, by simp [dtcsList, h1]⟩

/-- Claim C5 (amended): for every per-ECU response processed by
`get_dtcs` — modelled as a response preceded by responses that all decode
successfully — if the first byte is 0 and the remaining length (the bytes
after the first) is odd, the whole call returns a decode error
(`Error::Other`); if the first byte is a value greater than 3, or the
response is empty, the call also returns a decode error; in none of these
cases does it panic or return a partial result. -/
theorem get_dtcs_error_cases (pre : List (List Nat)) (response : List Nat)
    (post : List (List Nat))
    (hpre : ∀ r ∈ pre, ∃ ds, dtcsOne r = .value (.ok ds))
    (hbad : (response.head? = some 0 ∧ (response.length - 1) % 2 = 1)
      ∨ (∃ n, response.head? = some n ∧ 3 < n) ∨ response = []) :
    ∃ msg, dtcsOne response = .value (.error (.Other msg)) ∧
      dtcsList (pre ++ response :: post) = .value (.error (.Other msg)) := by
  have key : ∃ msg, dtcsOne response = .value (.error (.Other msg)) := by
    rcases hbad with ⟨h0, hodd⟩ | ⟨n, hn, h3⟩ | hnil
    · rcases response with _ | ⟨b, tail⟩
      · simp at h0
      · have hb : b = 0 := by simpa using h0
        subst hb
        have hlen : ¬ (tail.length + 1) % 2 = 1 := by
          simp only [List.length_cons] at hodd
          omega
        refine ⟨"invalid response when getting DTCs " ++
          toString ((0 : Nat) :: tail), ?_⟩
        simp [dtcsOne, hlen]
    · rcases response with _ | ⟨b, tail⟩
      · simp at hn
      · have hb : b = n := by simpa using hn
        subst hb
        obtain ⟨m, rfl⟩ : ∃ m, b = m + 1 := ⟨b - 1, by omega⟩
        have hle : ¬ m + 1 ≤ 3 := by omega
        refine ⟨"invalid response " ++ toString ((m + 1) :: tail) ++
          " when getting DTCs", ?_⟩
        simp [dtcsOne, hle]
    · subst hnil
      exact ⟨"no response bytes when getting DTCs", by simp [dtcsOne]⟩
  rcases key with ⟨msg, hmsg⟩
  exact ⟨msg, hmsg, dtcsList_prefix_error pre response post hpre _ hmsg⟩

/-- Witness for C5 (amended) at concrete inputs: after one successfully
decoded response, a first-byte-0 response with odd remaining length, a
first byte greater than 3, and an empty response each fail the whole call
with an `Other` decode error. -/
theorem get_dtcs_error_cases_witness :
    (∃ msg, dtcsOne [0, 9] = .value (.error (.Other msg)) ∧
      dtcsList [[0, 0x40, 0], [0, 9]] = .value (.error (.Other msg)))
    ∧ (∃ msg, dtcsOne [5, 1] = .value (.error (.Other msg)) ∧
        dtcsList [[5, 1]] = .value (.error (.Other msg)))
    ∧ (∃ msg, dtcsOne [] = .value (.error (.Other msg)) ∧
        dtcsList [[]] = .value (.error (.Other msg))) := by
  have hok : ∀ r ∈ [[0, 0x40, 0]], ∃ ds, dtcsOne r = .value (.ok ds) := by
    intro r hr
    rcases List.mem_singleton.mp hr with rfl
    exact ⟨[Dtc.Chassis 0], by norm_num [dtcsOne, dtcLoop_step, dtcLoop_stop, dtcFromByte]⟩
  refine ⟨?_, ?_, ?_⟩
  · exact get_dtcs_error_cases [[0, 0x40, 0]] [0, 9] [] hok
      (Or.inl ⟨rfl, by simp⟩)
  · exact get_dtcs_error_cases [] [5, 1] [] (by simp)
      (Or.inr (Or.inl ⟨5, rfl, by omega⟩))
  · exact get_dtcs_error_cases [] [] [] (by simp) (Or.inr (Or.inr rfl))

theorem categoryOfByte_code (b : Nat) : (categoryOfByte b).code = 0 := by
  rcases hb : b >>> 6 with _ | _ | _ | n <;> simp [categoryOfByte, hb, Dtc.code]

theorem dtcFromByte_eq (b : Nat) (h : b < 256) :
    dtcFromByte b = .value (categoryOfByte b) := by
  have h4 : b >>> 6 < 4 := by
    rw [Nat.shiftRight_eq_div_pow]
    have h64 : (2 : Nat) ^ 6 = 64 := rfl
    rw [h64]
    omega
  rcases hb : b >>> 6 with _ | _ | _ | n
  · simp [dtcFromByte, categoryOfByte, hb]
  · simp [dtcFromByte, categoryOfByte, hb]
  · simp [dtcFromByte, categoryOfByte, hb]
  · have hn : n = 0 := by omega
    subst hn
    simp [dtcFromByte, categoryOfByte, hb]

theorem range_map_shift {α : Type} (c : Nat) (f g : Nat → α)
    (h : ∀ j, g j = f (j + 1)) :
    List.map f (List.range (c + 1)) = f 0 :: List.map g (List.range c) := by
  rw [List.range_succ_eq_map, List.map_cons, List.map_map]
  congr 1
  congr 1
  funext j
  simp [Function.comp, h j, Nat.succ_eq_add_one]

theorem dtcLoop_spec (response : List Nat) (hb : ∀ b ∈ response, b < 256) :
    ∀ k i, response.length - i ≤ k →
      dtcLoop response i =
        .value ((List.range ((response.length - i + 1) / 2)).map
          (fun j => categoryOfByte (response.getD (i + 2 * j) 0))) := by
  intro k
  induction k with
  | zero =>
    intro i hk
    have hni : ¬ i < response.length := by omega
    have h0 : (response.length - i + 1) / 2 = 0 := by omega
    rw [dtcLoop_stop response i hni, h0]
    simp
  | succ k ih =>
    intro i hk
    by_cases hi : i < response.length
    · rw [dtcLoop_step response i hi,
        dtcFromByte_eq _ (hb _ (response.get_mem i hi)),
        ih (i + 2) (by omega)]
      have hc : (response.length - i + 1) / 2 =
          (response.length - (i + 2) + 1) / 2 + 1 := by omega
      rw [hc, range_map_shift _
        (fun j => categoryOfByte (response.getD (i + 2 * j) 0))
        (fun j => categoryOfByte (response.getD (i + 2 + 2 * j) 0))
        (fun j => by
          show categoryOfByte (response.getD (i + 2 + 2 * j) 0) =
            categoryOfByte (response.getD (i + 2 * (j + 1)) 0)
          rw [show i + 2 * (j + 1) = i + 2 + 2 * j from by ring])]
      have hi0 : response.getD (i + 2 * 0) 0 = response.get ⟨i, hi⟩ := by
        rw [show i + 2 * 0 = i from by ring,
          List.getD_eq_getElem response 0 hi, List.get_eq_getElem]
      rw [hi0]
    · have h0 : (response.length - i + 1) / 2 = 0 := by omega
      rw [dtcLoop_stop response i hi, h0]
      simp

/-- Claim C6: for every per-ECU response accepted by `get_dtcs` whose
first byte is 0 (with the required parity — an odd total length), the
bytes starting at offset 1 are interpreted in consecutive pairs; each
pair yields exactly one `Dtc` whose variant is selected by the top 2 bits
of the pair's first byte (00 → Powertrain, 01 → Chassis, 10 → Body,
11 → Network), and the numeric code inside every emitted `Dtc` is always
0, never extracted from the pair's remaining 14 bits. -/
theorem get_dtcs_pairs (response : List Nat) (h0 : response.head? = some 0)
    (hodd : response.length % 2 = 1) (hb : ∀ b ∈ response, b < 256) :
    dtcsOne response =
      .value (.ok ((List.range ((response.length - 1) / 2)).map
        (fun j => categoryOfByte (response.getD (1 + 2 * j) 0))))
    ∧ ∀ ds, dtcsOne response = .value (.ok ds) → ∀ d ∈ ds, d.code = 0 := by
  have hloop := dtcLoop_spec response hb response.length 1 (by omega)
  have main : dtcsOne response =
      .value (.ok ((List.range ((response.length - 1) / 2)).map
        (fun j => categoryOfByte (response.getD (1 + 2 * j) 0)))) := by
    rcases hr : response with _ | ⟨b, tail⟩
    · rw [hr] at h0
      simp at h0
    · have hb0 : b = 0 := by
        rw [hr] at h0
        simpa using h0
      subst hb0
      rw [hr] at hloop hodd
      have hcc : ((0 :: tail : List Nat).length - 1 + 1) / 2 =
          ((0 :: tail : List Nat).length - 1) / 2 := by
        simp only [List.length_cons] at hodd ⊢
        omega
      rw [hcc] at hloop
      simp only [dtcsOne, List.head?_cons, if_pos hodd, hloop]
  refine ⟨main, ?_⟩
  intro ds hds
  rw [main] at hds
  simp only [PanicOr.value.injEq, Except.ok.injEq] at hds
  subst hds
  intro d hd
  rcases List.mem_map.mp hd with ⟨j, _, rfl⟩
  exact categoryOfByte_code _

/-- Witness for C6 at a concrete input: the accepted response
`[0, 0x00, 0, 0x40, 0, 0x80, 0, 0xC0, 0]` (first byte 0, odd length)
decodes pairwise into the four categories selected by the top 2 bits of
the bytes at offsets 1, 3, 5, 7, each carrying code 0. -/
theorem get_dtcs_pairs_witness :
    dtcsOne [0, 0x00, 0, 0x40, 0, 0x80, 0, 0xc0, 0] =
      .value (.ok [Dtc.Powertrain 0, Dtc.Chassis 0, Dtc.Body 0, Dtc.Network 0]) :=
  ((get_dtcs_pairs [0, 0x00, 0, 0x40, 0, 0x80, 0, 0xc0, 0]
    rfl (by decide) (by decide)).1).trans rfl

theorem hexDigitChar_upper (n : Nat) (h : n < 16) :
    isUpperHexDigit (hexDigitChar n) = true := by
  interval_cases n <;> decide

theorem hexCharVal_hexDigitChar (n : Nat) (h : n < 16) :
    hexCharVal (hexDigitChar n) = n := by
  interval_cases n <;> decide

theorem hexVal_hexDigits (n : Nat) : hexVal (hexDigits n) = n := by
  induction n using Nat.strong_induction_on with
  | _ n ih =>
    by_cases h : n < 16
    · rw [hexDigits_lt n h]
      simp [hexVal, hexCharVal_hexDigitChar n h]
    · rw [hexDigits_ge n h]
      have hdiv : n / 16 < n := Nat.div_lt_self (by omega) (by omega)
      have hih := ih (n / 16) hdiv
      simp only [hexVal, List.foldl_append, List.foldl_cons, List.foldl_nil] at hih ⊢
      rw [hih, hexCharVal_hexDigitChar (n % 16) (Nat.mod_lt n (by omega))]
      omega

theorem hexDigits_mem_upper (n : Nat) :
    ∀ c ∈ hexDigits n, isUpperHexDigit c = true := by
  induction n using Nat.strong_induction_on with
  | _ n ih =>
    by_cases h : n < 16
    · rw [hexDigits_lt n h]
      intro c hc
      rcases List.mem_singleton.mp hc with rfl
      exact hexDigitChar_upper n h
    · rw [hexDigits_ge n h]
      intro c hc
      rcases List.mem_append.mp hc with hc | hc
      · exact ih (n / 16) (Nat.div_lt_self (by omega) (by omega)) c hc
      · rcases List.mem_singleton.mp hc with rfl
        exact hexDigitChar_upper (n % 16) (Nat.mod_lt n (by omega))

theorem hexVal_padZero3 (l : List Char) : hexVal (padZero3 l) = hexVal l := by
  have hz : ∀ k, List.foldl (fun acc c => acc * 16 + hexCharVal c) 0
      (List.replicate k '0') = 0 := by
    intro k
    induction k with
    | zero => rfl
    | succ k ihk =>
      have hstep : (0 : Nat) * 16 + hexCharVal '0' = 0 := by decide
      simp only [List.replicate_succ, List.foldl_cons, hstep, ihk]
  simp only [hexVal, padZero3, List.foldl_append, hz]

theorem padZero3_length (l : List Char) :
    (padZero3 l).length = max 3 l.length := by
  simp only [padZero3, List.length_append, List.length_replicate]
  omega

theorem hexDigits_length_le (k : Nat) :
    ∀ n, n < 16 ^ (k + 1) → (hexDigits n).length ≤ k + 1 := by
  induction k with
  | zero =>
    intro n hn
    rw [hexDigits_lt n (by simpa using hn)]
    simp
  | succ k ihk =>
    intro n hn
    by_cases h : n < 16
    · rw [hexDigits_lt n h]
      simp
    · rw [hexDigits_ge n h]
      have hdiv : n / 16 < 16 ^ (k + 1) := by
        rw [Nat.div_lt_iff_lt_mul (by omega : 0 < 16)]
        calc n < 16 ^ (k + 1 + 1) := hn
          _ = 16 ^ (k + 1) * 16 := by ring
      have := ihk (n / 16) hdiv
      simp only [List.length_append, List.length_cons, List.length_nil]
      omega

/-- Counterexample to claim C9 as stated: the Rust format `{:03X}` pads
to a minimum of 3 hexadecimal digits but never truncates, so a `Dtc`
carrying a code above 0xFFF renders with 4 digits, not exactly 3:
`Body 0x1234` renders as `"B1234"`, 5 characters in all. -/
theorem dtc_display_counterexample :
    (Dtc.Body 0x1234).display = "B1234"
    ∧ (Dtc.Body 0x1234).display.length ≠ 4 := by
  have h : (Dtc.Body 0x1234).display = "B1234" := by
    norm_num [Dtc.display, Dtc.letter, Dtc.code, padZero3, hexDigits_ge,
      hexDigits_lt, hexDigitChar]
  exact ⟨h, by rw [h]; decide⟩

/-- Claim C9 (amended): for every `Dtc` value, its Display rendering is
the category letter (P for Powertrain, C for Chassis, B for Body, U for
Network) followed by the carried numeric code in uppercase, zero-padded
hexadecimal digits — at least 3 of them, and exactly 3 whenever the code
is below 0x1000 (a code above 0xFFF needs and gets more digits); the
rendered digits are all uppercase hexadecimal and re-evaluate to the
carried code, and a Body code 0x003 renders as `"B003"`. -/
theorem dtc_display_amended (d : Dtc) :
    d.display = String.mk (d.letter :: padZero3 (hexDigits d.code))
    ∧ [(Dtc.Powertrain 0).letter, (Dtc.Chassis 0).letter,
        (Dtc.Body 0).letter, (Dtc.Network 0).letter] = ['P', 'C', 'B', 'U']
    ∧ (∀ c ∈ padZero3 (hexDigits d.code), isUpperHexDigit c = true)
    ∧ hexVal (padZero3 (hexDigits d.code)) = d.code
    ∧ 3 ≤ (padZero3 (hexDigits d.code)).length
    ∧ (d.code < 0x1000 → (padZero3 (hexDigits d.code)).length = 3)
    ∧ (Dtc.Body 3).display = "B003" := by
  refine ⟨rfl, rfl, ?_, ?_, ?_, ?_, ?_⟩
  · intro c hc
    rcases List.mem_append.mp hc with hc | hc
    · rcases List.eq_of_mem_replicate hc with rfl
      decide
    · exact hexDigits_mem_upper d.code c hc
  · rw [hexVal_padZero3]
    exact hexVal_hexDigits d.code
  · rw [padZero3_length]
    omega
  · intro hlt
    rw [padZero3_length]
    have := hexDigits_length_le 2 d.code (by norm_num; omega)
    omega
  · show String.mk ((Dtc.Body 3).letter ::
      padZero3 (hexDigits (Dtc.Body 3).code)) = "B003"
    rw [show (Dtc.Body 3).code = 3 from rfl, hexDigits_lt 3 (by omega)]
    decide

/-- Witness for C9 (amended) at a concrete input: `Body 0x003` renders as
`"B003"` — the category letter plus exactly 3 zero-padded uppercase hex
digits. -/
theorem dtc_display_amended_witness :
    (Dtc.Body 3).display = "B003"
    ∧ (padZero3 (hexDigits (Dtc.Body 3).code)).length = 3 :=
  ⟨(dtc_display_amended (Dtc.Body 3)).2.2.2.2.2.2,
    (dtc_display_amended (Dtc.Body 3)).2.2.2.2.2.1 (by decide)⟩

end Obd2
